import Mathlib

/-!
Shallow embedding of the safe-rename rewrite engine (src/engine.ts):
the per-file-type rewrite strategies, the file classifier and the
file-processing driver, together with theorems settling the frozen
claims about them.

Strings are modelled as Lean `String` (lists of characters); the
JavaScript regular-expression replacements of the source are modelled
by executable matching functions below (a small backtracking matcher
for the composite patterns, plus direct scanners for literal and
word-boundary patterns).  JavaScript library calls that are not part
of the repository (`JSON.parse`, `parseYaml`, the YAML serializer) are
taken as parameters of the embedded functions.
-/

namespace SafeRename

/-! ## Character helpers (JavaScript primitive semantics) -/

/-- Character comparison; case-insensitive when `ci` is true (models the
regular-expression `i` flag, ASCII case folding). -/
def chEq (ci : Bool) (a b : Char) : Bool :=
  if ci then a.toLower == b.toLower else a == b

/-- JavaScript `\w` (word character): `[A-Za-z0-9_]`. -/
def isWordChar (c : Char) : Bool :=
  ('a' ≤ c && c ≤ 'z') || ('A' ≤ c && c ≤ 'Z') || ('0' ≤ c && c ≤ '9') || c == '_'

/-- The characters matched by JavaScript `\s`. -/
def jsSpace : List Char :=
  [' ', '\t', '\n', '\r', Char.ofNat 11, Char.ofNat 12, Char.ofNat 0xa0,
   Char.ofNat 0x1680] ++
  (List.range 11).map (fun i => Char.ofNat (0x2000 + i)) ++
  [Char.ofNat 0x2028, Char.ofNat 0x2029, Char.ofNat 0x202f, Char.ofNat 0x205f,
   Char.ofNat 0x3000, Char.ofNat 0xfeff]

/-- JavaScript `toUpperCase` (ASCII folding, as the rename tokens use). -/
def jsToUpper (s : String) : String := ⟨s.data.map Char.toUpper⟩

/-- `pat` is a (case-insensitive when `ci`) prefix of `s`. -/
def startsWithCI (ci : Bool) : List Char → List Char → Bool
  | [], _ => true
  | _ :: _, [] => false
  | p :: ps, c :: cs => chEq ci p c && startsWithCI ci ps cs

/-! ## Literal global replacement

Models `text.replace(new RegExp(tok, flags), rep)` where `tok` is a
plain token (no metacharacters): leftmost non-overlapping occurrences,
scanning resumes after each match, matching on the original text.
An empty pattern is treated as matching nothing (rename tokens are
non-empty). -/

def replaceAllLitGo (ci : Bool) (pat rep : List Char) : Nat → List Char → List Char
  | 0, s => s
  | _ + 1, [] => []
  | fuel + 1, c :: cs =>
    if !pat.isEmpty && startsWithCI ci pat (c :: cs) then
      rep ++ replaceAllLitGo ci pat rep fuel ((c :: cs).drop pat.length)
    else
      c :: replaceAllLitGo ci pat rep fuel cs

/-- JavaScript `s.replace(new RegExp(pat, "g" or "gi"), rep)` for a literal
pattern `pat`. -/
def replaceAllLit (ci : Bool) (pat rep s : String) : String :=
  ⟨replaceAllLitGo ci pat.data rep.data s.data.length s.data⟩

/-! ## Word-boundary global replacement

Models `text.replace(new RegExp("\\b" + tok + "\\b", flags), rep)`:
a literal occurrence of `tok` whose two ends each sit on a `\b`
boundary (word-char status differs across the position). -/

def isWordOpt : Option Char → Bool
  | some c => isWordChar c
  | none => false

def wordReplaceGo (ci : Bool) (pat rep : List Char) (prevW : Bool) :
    Nat → List Char → List Char
  | 0, s => s
  | _ + 1, [] => []
  | fuel + 1, c :: cs =>
    if !pat.isEmpty && startsWithCI ci pat (c :: cs) &&
        (prevW != isWordChar c) &&
        (isWordOpt (((c :: cs).take pat.length).getLast?) !=
          isWordOpt (((c :: cs).drop pat.length).head?)) then
      rep ++ wordReplaceGo ci pat rep
        (isWordOpt (((c :: cs).take pat.length).getLast?)) fuel
        ((c :: cs).drop pat.length)
    else
      c :: wordReplaceGo ci pat rep (isWordChar c) fuel cs

/-- JavaScript `s.replace(new RegExp("\\b" + tok + "\\b", flags), rep)`. -/
def wordReplaceAll (ci : Bool) (pat rep s : String) : String :=
  ⟨wordReplaceGo ci pat.data rep.data false s.data.length s.data⟩

def containsSubGo (sub : List Char) : Nat → List Char → Bool
  | 0, l => startsWithCI false sub l
  | fuel + 1, l =>
    startsWithCI false sub l ||
      (match l with
       | [] => false
       | _ :: cs => containsSubGo sub fuel cs)

/-- `filePath.includes(sub)`: substring containment, case-sensitive. -/
def containsSub (s sub : String) : Bool :=
  containsSubGo sub.data s.data.length s.data

/-! ## A small backtracking matcher

The composite regular expressions of the source (the import / export /
require path rules, the Docker rules, the Markdown code-span and link
rules) are modelled as syntax trees of type `RE` and run by a
continuation-passing backtracking matcher, mirroring the ECMAScript
semantics the source relies on: ordered alternation, greedy and lazy
repetition with backtracking, a repetition iteration may not match
empty, capture groups, `\b` word boundaries, and leftmost search.
The matcher carries fuel; on the concrete inputs of this development
the fuel is always sufficient. -/

inductive RE where
  | eps : RE
  | lit : Char → RE
  | cls : Bool → List Char → RE
  | anyDot : RE
  | seq : RE → RE → RE
  | alt : RE → RE → RE
  | starG : RE → RE
  | starL : RE → RE
  | plusG : RE → RE
  | grp : Nat → RE → RE
  | wb : RE

/-- Recorded capture groups: (index, start, stop), latest first. -/
abbrev Groups := List (Nat × Nat × Nat)

def wordAt (s : Array Char) (i : Nat) : Bool :=
  match s.get? i with
  | some c => isWordChar c
  | none => false

/-- JavaScript `\b` at position `i` of `s`. -/
def isBoundaryAt (s : Array Char) (i : Nat) : Bool :=
  (decide (i ≠ 0) && wordAt s (i - 1)) != wordAt s i

/-- The characters JavaScript `.` does not match (line terminators). -/
def isLineTerm (c : Char) : Bool :=
  c == '\n' || c == '\r' || c == Char.ofNat 0x2028 || c == Char.ofNat 0x2029

/-- The backtracking matcher: match `re` in `s` at position `i` with
capture list `g`, calling continuation `k` on each candidate end
position in backtracking order. -/
def reMatch (ci : Bool) (s : Array Char) :
    Nat → RE → Nat → Groups → (Nat → Groups → Option (Nat × Groups)) →
    Option (Nat × Groups)
  | 0, _, _, _, _ => none
  | fuel + 1, re, i, g, k =>
    match re with
    | .eps => k i g
    | .lit c =>
      match s.get? i with
      | some d => if chEq ci d c then k (i + 1) g else none
      | none => none
    | .cls neg set =>
      match s.get? i with
      | some d => if set.any (fun x => chEq ci d x) != neg then k (i + 1) g else none
      | none => none
    | .anyDot =>
      match s.get? i with
      | some d => if isLineTerm d then none else k (i + 1) g
      | none => none
    | .seq a b => reMatch ci s fuel a i g (fun j g2 => reMatch ci s fuel b j g2 k)
    | .alt a b =>
      match reMatch ci s fuel a i g k with
      | some r => some r
      | none => reMatch ci s fuel b i g k
    | .starG a =>
      match reMatch ci s fuel a i g
          (fun j g2 => if j == i then none else reMatch ci s fuel (.starG a) j g2 k) with
      | some r => some r
      | none => k i g
    | .starL a =>
      match k i g with
      | some r => some r
      | none =>
        reMatch ci s fuel a i g
          (fun j g2 => if j == i then none else reMatch ci s fuel (.starL a) j g2 k)
    | .plusG a => reMatch ci s fuel a i g (fun j g2 => reMatch ci s fuel (.starG a) j g2 k)
    | .grp n a => reMatch ci s fuel a i g (fun j g2 => k j ((n, i, j) :: g2))
    | .wb => if isBoundaryAt s i then k i g else none

/-- Structural size of a pattern, used to budget matcher fuel. -/
def reSize : RE → Nat
  | .eps | .lit _ | .cls _ _ | .anyDot | .wb => 1
  | .seq a b | .alt a b => reSize a + reSize b + 1
  | .starG a | .starL a | .plusG a | .grp _ a => reSize a + 1

def matchFuel (re : RE) (s : Array Char) : Nat :=
  (reSize re + 2) * (s.size + 2) + 8

/-- Leftmost search: the first start position at or after `i` where `re`
matches, with the match end and captures. -/
def reSearchFrom (ci : Bool) (s : Array Char) (re : RE) :
    Nat → Nat → Option (Nat × Nat × Groups)
  | 0, _ => none
  | fuel + 1, i =>
    match reMatch ci s (matchFuel re s) re i [] (fun j g => some (j, g)) with
    | some (j, g) => some (i, j, g)
    | none => if i < s.size then reSearchFrom ci s re fuel (i + 1) else none

def sliceStr (s : Array Char) (a b : Nat) : String :=
  ⟨(s.extract a b).toList⟩

def groupStr (s : Array Char) (g : Groups) (n : Nat) : String :=
  match g.find? (fun t => t.1 == n) with
  | some (_, a, b) => sliceStr s a b
  | none => ""

/-- Global replacement: `s.replace(re_with_g_flag, repl)`, where `repl`
receives the whole match and a capture-group accessor (modelling both
`$n` replacement strings and replacement callbacks). -/
def gReplaceGo (ci : Bool) (re : RE) (repl : String → (Nat → String) → String)
    (s : Array Char) : Nat → Nat → String
  | 0, i => sliceStr s i s.size
  | fuel + 1, i =>
    match reSearchFrom ci s re (s.size + 2 - i) i with
    | none => sliceStr s i s.size
    | some (st, en, g) =>
      sliceStr s i st ++ repl (sliceStr s st en) (fun n => groupStr s g n) ++
        (if en == st then
          match s.get? en with
          | some c => String.singleton c ++ gReplaceGo ci re repl s fuel (en + 1)
          | none => ""
        else gReplaceGo ci re repl s fuel en)

def gReplaceAll (ci : Bool) (re : RE) (repl : String → (Nat → String) → String)
    (s : String) : String :=
  gReplaceGo ci re repl (Array.mk s.data) (s.data.length + 2) 0

/-- A sequence of patterns. -/
def rseq (xs : List RE) : RE := xs.foldr .seq .eps

/-- A literal string as a pattern. -/
def litStr (t : String) : RE := rseq (t.data.map .lit)

/-- The quote characters `'` and `"` (the class `['"]` of the source). -/
def quoteChars : List Char := [Char.ofNat 39, '"']

def quoteCls : RE := .cls false quoteChars

def notQuoteStar : RE := .starG (.cls true quoteChars)

def spaceCls : RE := .cls false jsSpace

/-! ## Rename options (the `RenameOptions` interface)

`multiMap` is `some m` when `options.multiMap` is set (a JavaScript
object is truthy even when empty); otherwise the map is the single
`(oldName, newName)` pair.  `caseSensitive` and `dry` default to
`false` (absent options are falsy). -/

structure RenameOptions where
  oldName : String
  newName : String
  dry : Bool := false
  multiMap : Option (List (String × String)) := none
  caseSensitive : Bool := false

/-- `options.multiMap || { [options.oldName]: options.newName }`. -/
def renameMap (o : RenameOptions) : List (String × String) :=
  match o.multiMap with
  | some m => m
  | none => [(o.oldName, o.newName)]

/-- `options.caseSensitive ? "g" : "gi"`: whether matching is
case-insensitive. -/
def ciFlag (o : RenameOptions) : Bool := !o.caseSensitive

/-! ## The generic JSON/YAML value tree

`JSON.parse` / `parseYaml` results are modelled by the mutual family
below; an object is an ordered list of key-value fields (JavaScript
objects enumerate string keys in insertion order). -/

mutual
inductive Json where
  | str : String → Json
  | num : Int → Json
  | bool : Bool → Json
  | null : Json
  | arr : JsonArr → Json
  | obj : JsonObj → Json
inductive JsonArr where
  | nil : JsonArr
  | cons : Json → JsonArr → JsonArr
inductive JsonObj where
  | nil : JsonObj
  | cons : String → Json → JsonObj → JsonObj
end

/-- Build an object from a list of fields (in order). -/
def JsonObj.ofList : List (String × Json) → JsonObj
  | [] => .nil
  | (k, v) :: rest => .cons k v (JsonObj.ofList rest)

/-- Build an array from a list of values. -/
def JsonArr.ofList : List Json → JsonArr
  | [] => .nil
  | v :: rest => .cons v (JsonArr.ofList rest)

/-- The keys of an object, in order. -/
def JsonObj.keys : JsonObj → List String
  | .nil => []
  | .cons k _ rest => k :: rest.keys

/-- JavaScript property assignment `result[k] = v`: overwrite the value
at an existing key `k` in place, else append the new field. -/
def insertJS : JsonObj → String → Json → JsonObj
  | .nil, k, v => .cons k v .nil
  | .cons k0 v0 rest, k, v =>
    if k0 = k then .cons k0 v rest else .cons k0 v0 (insertJS rest k v)

/-- One string run through every rename pair in order:
`for ([oldName, newName] of entries) value = value.replace(new RegExp(oldName, flags), newName)`. -/
def rewriteString (m : List (String × String)) (ci : Bool) (s : String) : String :=
  m.foldl (fun acc pr => replaceAllLit ci pr.1 pr.2 acc) s

/-! The recursive `processValue` helper shared (verbatim, as two local
copies) by `processJsonFile` and `processYamlFile` in the source:
strings are substring-rewritten, arrays mapped element-wise, objects
rebuilt field by field into a fresh object with rewritten keys. -/

mutual
def rewriteValue (m : List (String × String)) (ci : Bool) : Json → Json
  | .str s => .str (rewriteString m ci s)
  | .num n => .num n
  | .bool b => .bool b
  | .null => .null
  | .arr xs => .arr (rewriteArr m ci xs)
  | .obj fs => .obj (rewriteObjGo m ci .nil fs)
def rewriteArr (m : List (String × String)) (ci : Bool) : JsonArr → JsonArr
  | .nil => .nil
  | .cons x xs => .cons (rewriteValue m ci x) (rewriteArr m ci xs)
def rewriteObjGo (m : List (String × String)) (ci : Bool) (acc : JsonObj) :
    JsonObj → JsonObj
  | .nil => acc
  | .cons k v fs =>
    rewriteObjGo m ci (insertJS acc (rewriteString m ci k) (rewriteValue m ci v)) fs
end

/-! ## `JSON.stringify(value, null, 2)` -/

/-- JSON string escaping as `JSON.stringify` performs it. -/
def escapeJsonChar (c : Char) : String :=
  if c = '"' then "\\\""
  else if c = '\\' then "\\\\"
  else if c = '\n' then "\\n"
  else if c = '\r' then "\\r"
  else if c = '\t' then "\\t"
  else if c = Char.ofNat 8 then "\\b"
  else if c = Char.ofNat 12 then "\\f"
  else if c.toNat < 32 then
    "\\u00" ++ String.singleton (Nat.digitChar (c.toNat / 16)) ++
      String.singleton (Nat.digitChar (c.toNat % 16))
  else String.singleton c

def quoteJson (s : String) : String :=
  "\"" ++ String.join (s.data.map escapeJsonChar) ++ "\""

/-- `2 * n` spaces of indentation. -/
def pad (n : Nat) : String := String.mk (List.replicate (2 * n) ' ')

mutual
/-- `JSON.stringify(v, null, 2)` at nesting level `lvl`. -/
def stringifyV (lvl : Nat) : Json → String
  | .str s => quoteJson s
  | .num n => toString n
  | .bool b => if b then "true" else "false"
  | .null => "null"
  | .arr .nil => "[]"
  | .arr (.cons x xs) =>
    "[\n" ++ stringifyItems lvl (.cons x xs) ++ "\n" ++ pad lvl ++ "]"
  | .obj .nil => "\x7b\x7d"
  | .obj (.cons k v fs) =>
    "\x7b\n" ++ stringifyFields lvl (.cons k v fs) ++ "\n" ++ pad lvl ++ "\x7d"
def stringifyItems (lvl : Nat) : JsonArr → String
  | .nil => ""
  | .cons x .nil => pad (lvl + 1) ++ stringifyV (lvl + 1) x
  | .cons x (.cons y ys) =>
    pad (lvl + 1) ++ stringifyV (lvl + 1) x ++ ",\n" ++ stringifyItems lvl (.cons y ys)
def stringifyFields (lvl : Nat) : JsonObj → String
  | .nil => ""
  | .cons k v .nil => pad (lvl + 1) ++ quoteJson k ++ ": " ++ stringifyV (lvl + 1) v
  | .cons k v (.cons k2 v2 fs) =>
    pad (lvl + 1) ++ quoteJson k ++ ": " ++ stringifyV (lvl + 1) v ++ ",\n" ++
      stringifyFields lvl (.cons k2 v2 fs)
end

/-- `JSON.stringify(processedData, null, 2)`. -/
def jsonStringify (v : Json) : String := stringifyV 0 v

/-! ## The six rewrite strategies -/

/-- `(import\s+.*?\s+from\s+['"][^'"]*)OLD([^'"]*['"])`. -/
def importRe (oldN : String) : RE :=
  rseq [ .grp 1 (rseq [litStr "import", .plusG spaceCls, .starL .anyDot, .plusG spaceCls,
           litStr "from", .plusG spaceCls, quoteCls, notQuoteStar]),
         litStr oldN,
         .grp 2 (rseq [notQuoteStar, quoteCls]) ]

/-- `(export\s+.*?\s+from\s+['"][^'"]*)OLD([^'"]*['"])`. -/
def exportRe (oldN : String) : RE :=
  rseq [ .grp 1 (rseq [litStr "export", .plusG spaceCls, .starL .anyDot, .plusG spaceCls,
           litStr "from", .plusG spaceCls, quoteCls, notQuoteStar]),
         litStr oldN,
         .grp 2 (rseq [notQuoteStar, quoteCls]) ]

/-- `(require\s*\(\s*['"][^'"]*)OLD([^'"]*['"])`. -/
def requireRe (oldN : String) : RE :=
  rseq [ .grp 1 (rseq [litStr "require", .starG spaceCls, .lit '(', .starG spaceCls,
           quoteCls, notQuoteStar]),
         litStr oldN,
         .grp 2 (rseq [notQuoteStar, quoteCls]) ]

/-- The `$1${newName}$2` replacement of the three path rules. -/
def pathRepl (newN : String) : String → (Nat → String) → String :=
  fun _ g => g 1 ++ newN ++ g 2

/-- `processTypeScriptFile`: for each rename pair, in order, the five
rules import-path, export-path, require-path, scoped `@old`, and the
generic whole-word occurrence. -/
def processTypeScriptFile (content : String) (o : RenameOptions) : String :=
  (renameMap o).foldl (fun newContent pr =>
    let ci := ciFlag o
    let s1 := gReplaceAll ci (importRe pr.1) (pathRepl pr.2) newContent
    let s2 := gReplaceAll ci (exportRe pr.1) (pathRepl pr.2) s1
    let s3 := gReplaceAll ci (requireRe pr.1) (pathRepl pr.2) s2
    let s4 := replaceAllLit ci ("@" ++ pr.1) ("@" ++ pr.2) s3
    wordReplaceAll ci pr.1 pr.2 s4) content

/-- `processJsonFile`: parse (the `JSON.parse` library call is the
`jsonParse` parameter), rewrite the value tree, re-serialize with
2-space indentation; a parse failure returns the original content and
logs a warning (the `Bool` of the result). -/
def processJsonFile (jsonParse : String → Option Json) (content : String)
    (o : RenameOptions) : String × Bool :=
  match jsonParse content with
  | some data => (jsonStringify (rewriteValue (renameMap o) (ciFlag o) data), false)
  | none => (content, true)

/-- `processYamlFile`: same structural rewrite as JSON; the `parseYaml`
and yaml `stringify` library calls are parameters. -/
def processYamlFile (yamlParse : String → Option Json) (yamlStringify : Json → String)
    (content : String) (o : RenameOptions) : String × Bool :=
  match yamlParse content with
  | some data => (yamlStringify (rewriteValue (renameMap o) (ciFlag o) data), false)
  | none => (content, true)

/-- `processEnvFile`: for each pair, replace the uppercased old token by
the uppercased new token, then replace `=old` by `=new`. -/
def processEnvFile (content : String) (o : RenameOptions) : String :=
  (renameMap o).foldl (fun newContent pr =>
    let ci := ciFlag o
    let s1 := replaceAllLit ci (jsToUpper pr.1) (jsToUpper pr.2) newContent
    replaceAllLit ci ("=" ++ pr.1) ("=" ++ pr.2) s1) content

/-- `(FROM|image:)\s*([^\s]*OLD[^\s]*)`. -/
def dockerFromRe (oldN : String) : RE :=
  rseq [ .grp 1 (.alt (litStr "FROM") (litStr "image:")), .starG spaceCls,
         .grp 2 (rseq [.starG (.cls true jsSpace), litStr oldN, .starG (.cls true jsSpace)]) ]

/-- `(ENV|ARG)\s+(OLDUPPER)`. -/
def dockerEnvRe (oldN : String) : RE :=
  rseq [ .grp 1 (.alt (litStr "ENV") (litStr "ARG")), .plusG spaceCls,
         .grp 2 (litStr (jsToUpper oldN)) ]

/-- `processDockerFile`: rewrite `FROM`/`image:` image paths (only the
token inside the path) and `ENV`/`ARG` declarations (uppercased). -/
def processDockerFile (content : String) (o : RenameOptions) : String :=
  (renameMap o).foldl (fun newContent pr =>
    let ci := ciFlag o
    let s1 := gReplaceAll ci (dockerFromRe pr.1)
      (fun _ g => g 1 ++ " " ++ replaceAllLit ci pr.1 pr.2 (g 2)) newContent
    gReplaceAll ci (dockerEnvRe pr.1) (fun _ g => g 1 ++ " " ++ jsToUpper pr.2) s1) content

def backslashChar : Char := '\\'

def backtickChar : Char := Char.ofNat 96

/-- The code-span pattern of `processMarkdownFile` exactly as the source
writes it.  The double-escaping in the source string literal makes every
backtick of the intended pattern a literal `\`` two-character sequence:
the pattern is
`(\\`\\`\\[\s\S]*?\\`\\`\\`|\\`[^\\`]*\\`)` (backslash-backtick pairs),
which can only match text containing literal backslash-backtick runs. -/
def mdCodeRe : RE :=
  .grp 1 (.alt
    (rseq [.lit backslashChar, .lit backtickChar, .lit backslashChar, .lit backtickChar,
           .lit backslashChar, .starL (.cls true []),
           .lit backslashChar, .lit backtickChar, .lit backslashChar, .lit backtickChar,
           .lit backslashChar, .lit backtickChar])
    (rseq [.lit backslashChar, .lit backtickChar,
           .starG (.cls true [backslashChar, backtickChar]),
           .lit backslashChar, .lit backtickChar]))

/-- `\[([^\]]*)\]\(([^)]*OLD[^)]*)\)`. -/
def mdLinkRe (oldN : String) : RE :=
  rseq [ .lit '[', .grp 1 (.starG (.cls true [']'])), .lit ']', .lit '(',
         .grp 2 (rseq [.starG (.cls true [')']), litStr oldN, .starG (.cls true [')'])]),
         .lit ')' ]

/-- `processMarkdownFile`: for each pair, the code-span rule, then the
link-target rule, then the generic whole-word rule. -/
def processMarkdownFile (content : String) (o : RenameOptions) : String :=
  (renameMap o).foldl (fun newContent pr =>
    let ci := ciFlag o
    let s1 := gReplaceAll ci mdCodeRe
      (fun m _ => replaceAllLit ci pr.1 pr.2 m) newContent
    let s2 := gReplaceAll ci (mdLinkRe pr.1)
      (fun _ g => "[" ++ g 1 ++ "](" ++ replaceAllLit ci pr.1 pr.2 (g 2) ++ ")") s1
    wordReplaceAll ci pr.1 pr.2 s2) content

/-! ## File classifier and driver (`processFile`, `runSafeRename`) -/

/-- The basename of a path (text after the last `/`). -/
def basenameOf (p : String) : String :=
  ⟨p.data.foldl (fun acc c => if c = '/' then [] else acc ++ [c]) []⟩

/-- Node's `path.extname`: from the last `.` of the basename to the end,
empty when there is no dot or the only dot starts the basename. -/
def extname (p : String) : String :=
  let b := (basenameOf p).data
  let lastDot := (List.range b.length).foldl
    (fun acc i => if b.get? i = some '.' then some i else acc) none
  match lastDot with
  | none => ""
  | some 0 => ""
  | some i => ⟨b.drop i⟩

/-- The strategy a file resolves to (or `noMatch`). -/
inductive Strategy where
  | ts | json | yaml | env | docker | markdown | noMatch
deriving DecidableEq

/-- The dispatch chain of `processFile`, in source order: the
ts/tsx/js/jsx, `.json` and `.yml`/`.yaml` extension checks, then the
`env` and `Dockerfile`/`docker-compose` path-substring checks, then the
`.md` extension check. -/
def classify (filePath : String) : Strategy :=
  let ext := extname filePath
  if ext = ".ts" || ext = ".tsx" || ext = ".js" || ext = ".jsx" then .ts
  else if ext = ".json" then .json
  else if ext = ".yml" || ext = ".yaml" then .yaml
  else if containsSub filePath "env" then .env
  else if containsSub filePath "Dockerfile" || containsSub filePath "docker-compose" then .docker
  else if ext = ".md" then .markdown
  else .noMatch

/-- The JavaScript library functions `processFile` reaches through:
`JSON.parse`, `parseYaml` and the yaml `stringify`. -/
structure ExternalLibs where
  jsonParse : String → Option Json
  yamlParse : String → Option Json
  yamlStringify : Json → String

/-- The dispatch of `processFile` (lines 122-137): the rewritten content
and whether a parse warning was logged. -/
def rewriteContent (libs : ExternalLibs) (o : RenameOptions)
    (filePath content : String) : String × Bool :=
  match classify filePath with
  | .ts => (processTypeScriptFile content o, false)
  | .json => processJsonFile libs.jsonParse content o
  | .yaml => processYamlFile libs.yamlParse libs.yamlStringify content o
  | .env => (processEnvFile content o, false)
  | .docker => (processDockerFile content o, false)
  | .markdown => (processMarkdownFile content o, false)
  | .noMatch => (content, false)

/-- A file of the resolved set: its path and the result of
`fs.readFile` (`Except.error` models a thrown read exception). -/
structure FileInput where
  path : String
  readResult : Except String String

/-- The per-file outcome record `{ processed, modified, error }`. -/
structure FileOutcome where
  processed : Bool
  modified : Bool
  error : Option String
deriving DecidableEq

/-- What `processFile` did: the outcome plus the `fs.writeFile` call it
issued, if any (path and written content). -/
structure FileResult where
  outcome : FileOutcome
  write : Option (String × String)
deriving DecidableEq

/-- `processFile`: read, classify and rewrite, write back only when the
content changed and preview mode is off; any thrown exception yields
the error outcome. -/
def processFile (libs : ExternalLibs) (o : RenameOptions) (f : FileInput) : FileResult :=
  match f.readResult with
  | .error e => ⟨⟨false, false, some e⟩, none⟩
  | .ok content =>
    let newContent := (rewriteContent libs o f.path content).1
    let modified := newContent ≠ content
    ⟨⟨true, modified, none⟩,
      if modified ∧ o.dry = false then some (f.path, newContent) else none⟩

/-- The driver's per-file results (`Promise.all(files.map(...))`). -/
def runResults (libs : ExternalLibs) (o : RenameOptions) (files : List FileInput) :
    List FileResult :=
  files.map (processFile libs o)

/-- The aggregate summary `{ processed, modified, errors }`. -/
structure RunSummary where
  processed : Nat
  modified : Nat
  errors : Nat
deriving DecidableEq

/-- The reduce step of `runSafeRename`. -/
def summaryStep (acc : RunSummary) (r : FileResult) : RunSummary :=
  ⟨acc.processed + (if r.outcome.processed then 1 else 0),
   acc.modified + (if r.outcome.modified then 1 else 0),
   acc.errors + (if r.outcome.error.isSome then 1 else 0)⟩

/-- The summary of one run over `files`. -/
def runSummary (libs : ExternalLibs) (o : RenameOptions) (files : List FileInput) :
    RunSummary :=
  (runResults libs o files).foldl summaryStep ⟨0, 0, 0⟩

/-- The file set after a run: each file whose result issued a write now
reads back the written content (paths in the resolved set are unique,
and a file's write targets its own path). -/
def applyWrites (files : List FileInput) (results : List FileResult) : List FileInput :=
  List.zipWith (fun (f : FileInput) (r : FileResult) =>
    match r.write with
    | some (_, c) => ⟨f.path, .ok c⟩
    | none => f) files results

/-! ## Named forms of the Code-strategy rules (for the rule-order claim) -/

/-- The import-path rule of one pair. -/
def applyImportRule (ci : Bool) (oldN newN s : String) : String :=
  gReplaceAll ci (importRe oldN) (pathRepl newN) s

/-- The export-path rule of one pair. -/
def applyExportRule (ci : Bool) (oldN newN s : String) : String :=
  gReplaceAll ci (exportRe oldN) (pathRepl newN) s

/-- The require-path rule of one pair. -/
def applyRequireRule (ci : Bool) (oldN newN s : String) : String :=
  gReplaceAll ci (requireRe oldN) (pathRepl newN) s

/-- The scoped-package `@old` rule of one pair. -/
def applyScopedRule (ci : Bool) (oldN newN s : String) : String :=
  replaceAllLit ci ("@" ++ oldN) ("@" ++ newN) s

/-- The generic whole-word rule of one pair. -/
def applyWordRule (ci : Bool) (oldN newN s : String) : String :=
  wordReplaceAll ci oldN newN s

/-- One pair's five rules in source order: import-from, export-from,
require, scoped `@old`, generic whole word. -/
def applyCodePair (ci : Bool) (pr : String × String) (s : String) : String :=
  applyWordRule ci pr.1 pr.2
    (applyScopedRule ci pr.1 pr.2
      (applyRequireRule ci pr.1 pr.2
        (applyExportRule ci pr.1 pr.2
          (applyImportRule ci pr.1 pr.2 s))))

/-- All pairs in order, each pair's output feeding the next pair. -/
def applyCodePairs (ci : Bool) : List (String × String) → String → String
  | [], s => s
  | pr :: prs, s => applyCodePairs ci prs (applyCodePair ci pr s)

/-! ## Duplicate-key predicates (for the key-collision claim) -/

/-- No string occurs twice in the list. -/
def nodupKeysList : List String → Bool
  | [] => true
  | k :: ks => !(ks.contains k) && nodupKeysList ks

mutual
/-- Every object anywhere inside the value has pairwise-distinct keys. -/
def keysOkV : Json → Bool
  | .str _ => true
  | .num _ => true
  | .bool _ => true
  | .null => true
  | .arr xs => keysOkArr xs
  | .obj fs => nodupKeysList fs.keys && keysOkObj fs
def keysOkArr : JsonArr → Bool
  | .nil => true
  | .cons x xs => keysOkV x && keysOkArr xs
def keysOkObj : JsonObj → Bool
  | .nil => true
  | .cons _ v fs => keysOkV v && keysOkObj fs
end

/-! ## Concrete instances used by witnesses and counterexamples -/

/-- External libraries whose parsers always fail (sufficient for files
that never reach them, and for parse-failure scenarios). -/
def libsNone : ExternalLibs := ⟨fun _ => none, fun _ => none, fun _ => ""⟩

/-- A marker value placed at an arbitrary depth: `d` singleton-object
wrappers with the untouched key `"level"`. -/
def nestDepth (d : Nat) (v : Json) : Json :=
  match d with
  | 0 => v
  | d + 1 => .obj (.cons "level" (nestDepth d v) .nil)

/-- The single-pair rename map `old-pkg → new-pkg`. -/
def mapC6 : List (String × String) := [("old-pkg", "new-pkg")]

/-- Options for the `old-pkg → new-pkg` rename (defaults: not dry, no
multiMap, case-insensitive). -/
def oC6 : RenameOptions := { oldName := "old-pkg", newName := "new-pkg" }

/-- A marker object: a key and a scalar string (inside an array)
containing the old token mid-word, plus a non-string scalar. -/
def markerIn : Json :=
  .obj (.cons "key-old-pkg" (.arr (.cons (.str "xold-pkgy") (.cons (.num 5) .nil))) .nil)

/-- The marker after renaming. -/
def markerOut : Json :=
  .obj (.cons "key-new-pkg" (.arr (.cons (.str "xnew-pkgy") (.cons (.num 5) .nil))) .nil)

/-- Options of the run-twice counterexample: a multiMap whose second
pair rewrites `c` to the first pair's old token `a` (not a no-op
cycle: the composite genuinely renames). -/
def oTwice : RenameOptions :=
  { oldName := "a", newName := "b", dry := false, multiMap := some [("a", "b"), ("c", "a")] }

/-- The single file of the run-twice counterexample. -/
def filesTwice : List FileInput := [⟨"f.ts", .ok "c"⟩]

/-- Options of the run-twice witness: a plain case-sensitive rename. -/
def oTwiceW : RenameOptions :=
  { oldName := "old-pkg", newName := "new-pkg", dry := false, caseSensitive := true }

/-- The file set of the run-twice witness. -/
def filesTwiceW : List FileInput := [⟨"x.env", .ok "PORT=old-pkg"⟩]

/-- Dry-run options for the write-policy witness. -/
def oDryW : RenameOptions := { oldName := "old-package", newName := "new-package", dry := true }

/-- Non-dry options for the write-policy witness. -/
def oWetW : RenameOptions := { oldName := "old-package", newName := "new-package", dry := false }

/-- The env file of the write-policy witness. -/
def fEnvW : FileInput := ⟨"a.env", .ok "A=old-package"⟩

/-- A file whose read throws (a permission error). -/
def fErrW : FileInput := ⟨"bad.json", .error "EACCES"⟩

/-- A `.json` file whose content does not parse. -/
def fJsonW : FileInput := ⟨"bad.json", .ok "not json"⟩

/-- A file matching no strategy. -/
def fTxtW : FileInput := ⟨"notes.txt", .ok "hello"⟩

/-- The state of a file after one run: the written content when that
file's result issued a write, the unchanged file otherwise. -/
def afterWrite (r : FileResult) (f : FileInput) : FileInput :=
  match r.write with
  | some (_, c) => ⟨f.path, .ok c⟩
  | none => f

/-! # Theorems -/

/-- C1: for every file processed by the driver, preview/dry mode never
issues a write, a file whose read throws is never written, and with
preview off the file is written back (with the rewritten content, to
its own path) if and only if the rewritten content differs from the
original — a no-op write is never issued. -/
theorem C1_preview_and_noop_write_policy (libs : ExternalLibs) (o : RenameOptions)
    (f : FileInput) :
    (o.dry = true → (processFile libs o f).write = none) ∧
    (∀ e, f.readResult = .error e → (processFile libs o f).write = none) ∧
    (o.dry = false → ∀ content, f.readResult = .ok content →
      ((processFile libs o f).write =
          some (f.path, (rewriteContent libs o f.path content).1) ↔
        (rewriteContent libs o f.path content).1 ≠ content) ∧
      ((processFile libs o f).write = none ↔
        (rewriteContent libs o f.path content).1 = content)) := by
  refine ⟨?_, ?_, ?_⟩
  · intro hdry
    cases hr : f.readResult with
    | error e => simp [processFile, hr]
    | ok content => simp [processFile, hr, hdry]
  · intro e he
    simp [processFile, he]
  · intro hdry content hc
    by_cases hmod : (rewriteContent libs o f.path content).1 = content
    · simp [processFile, hc, hmod, hdry]
    · simp [processFile, hc, hmod, hdry]

/-- Witness for C1 at a concrete env file: the dry run issues no write,
and the non-dry run's write is issued exactly when the rewrite differs. -/
theorem C1_preview_and_noop_write_policy_witness :
    (processFile libsNone oDryW fEnvW).write = none ∧
    ((processFile libsNone oWetW fEnvW).write =
        some ("a.env", (rewriteContent libsNone oWetW "a.env" "A=old-package").1) ↔
      (rewriteContent libsNone oWetW "a.env" "A=old-package").1 ≠ "A=old-package") :=
  ⟨(C1_preview_and_noop_write_policy libsNone oDryW fEnvW).1 rfl,
   ((C1_preview_and_noop_write_policy libsNone oWetW fEnvW).2.2 rfl "A=old-package" rfl).1⟩

/-- C2: every file of the batch yields exactly one `FileOutcome`
(one result per input file, at the file's own position, depending only
on that file), a read exception is caught locally and recorded as that
file's error outcome, and the run's summary is the aggregation of all
per-file results. -/
theorem C2_one_outcome_per_file (libs : ExternalLibs) (o : RenameOptions)
    (files : List FileInput) :
    (runResults libs o files).length = files.length ∧
    (∀ pre f post, files = pre ++ f :: post →
      (runResults libs o files).get? pre.length = some (processFile libs o f)) ∧
    (∀ f e, f.readResult = .error e →
      processFile libs o f = ⟨⟨false, false, some e⟩, none⟩) ∧
    runSummary libs o files = (runResults libs o files).foldl summaryStep ⟨0, 0, 0⟩ := by
  refine ⟨by simp [runResults], ?_, ?_, rfl⟩
  · intro pre f post hsplit
    subst hsplit
    simp only [runResults, List.map_append, List.map_cons, List.get?_eq_getElem?]
    rw [show pre.length = (List.map (processFile libs o) pre).length by simp]
    rw [List.getElem?_append_right (Nat.le_refl _)]
    simp
  · intro f e he
    simp [processFile, he]

/-- Witness for C2: in a batch with an unreadable file first, that file's
outcome sits at its position as an error record and the healthy file
behind it is still processed. -/
theorem C2_one_outcome_per_file_witness :
    (runResults libsNone oWetW [fErrW, fEnvW]).get? 0 =
      some (processFile libsNone oWetW fErrW) ∧
    processFile libsNone oWetW fErrW = ⟨⟨false, false, some "EACCES"⟩, none⟩ :=
  ⟨(C2_one_outcome_per_file libsNone oWetW [fErrW, fEnvW]).2.1 [] fErrW [fEnvW] rfl,
   (C2_one_outcome_per_file libsNone oWetW [fErrW, fEnvW]).2.2.1 fErrW "EACCES" rfl⟩

/-- C3: a JSON (respectively YAML) parse failure makes the strategy
return the original text unchanged — no textual fallback rewrite — with
a warning logged and no exception, and at the driver such a file is
counted processed-not-modified with no error and no write. -/
theorem C3_parse_failure_recovery (libs : ExternalLibs) (o : RenameOptions)
    (content : String) :
    (libs.jsonParse content = none →
      processJsonFile libs.jsonParse content o = (content, true)) ∧
    (libs.yamlParse content = none →
      processYamlFile libs.yamlParse libs.yamlStringify content o = (content, true)) ∧
    (∀ f : FileInput, f.readResult = .ok content →
      (classify f.path = .json → libs.jsonParse content = none →
        processFile libs o f = ⟨⟨true, false, none⟩, none⟩) ∧
      (classify f.path = .yaml → libs.yamlParse content = none →
        processFile libs o f = ⟨⟨true, false, none⟩, none⟩)) := by
  refine ⟨?_, ?_, ?_⟩
  · intro h; simp [processJsonFile, h]
  · intro h; simp [processYamlFile, h]
  · intro f hf
    constructor
    · intro hcl h
      simp [processFile, hf, rewriteContent, hcl, processJsonFile, h]
    · intro hcl h
      simp [processFile, hf, rewriteContent, hcl, processYamlFile, h]

/-- Witness for C3 at a concrete unparsable `.json` file. -/
theorem C3_parse_failure_recovery_witness :
    processJsonFile libsNone.jsonParse "not json" oWetW = ("not json", true) ∧
    processFile libsNone oWetW fJsonW = ⟨⟨true, false, none⟩, none⟩ :=
  ⟨(C3_parse_failure_recovery libsNone oWetW "not json").1 rfl,
   ((C3_parse_failure_recovery libsNone oWetW "not json").2.2 fJsonW rfl).1 rfl rfl⟩

/-- Counterexample to C4 as stated: the `.md` extension check is NOT
applied before the name-based checks — the path `app-env.md` has
extension `.md` yet resolves to the env strategy, because the
`path.includes("env")` check runs first. -/
theorem C4_md_after_name_checks_counterexample :
    classify "app-env.md" = Strategy.env ∧ Strategy.env ≠ Strategy.markdown := by
  decide

/-- C4 (amended): the classifier selects at most one strategy; the
ts/tsx/js/jsx, `.json` and `.yml`/`.yaml` extension checks come before
the name-based `env` check (so `Dockerfile.yaml` deterministically
resolves to the single YAML rule), but the `.md` extension check comes
last, after the name-based checks; a file matching no strategy passes
through unmodified and is counted processed, not modified. -/
theorem C4_classifier_order (p : String) :
    ((extname p = ".ts" ∨ extname p = ".tsx" ∨ extname p = ".js" ∨ extname p = ".jsx") →
      classify p = .ts) ∧
    (extname p = ".json" → classify p = .json) ∧
    ((extname p = ".yml" ∨ extname p = ".yaml") → classify p = .yaml) ∧
    (containsSub p "env" = true →
      extname p ∉ ([".ts", ".tsx", ".js", ".jsx", ".json", ".yml", ".yaml"] : List String) →
      classify p = .env) ∧
    classify "Dockerfile.yaml" = Strategy.yaml ∧
    (∀ libs o (f : FileInput) content, f.readResult = .ok content →
      classify f.path = .noMatch →
      processFile libs o f = ⟨⟨true, false, none⟩, none⟩) := by
  refine ⟨?_, ?_, ?_, ?_, by decide, ?_⟩
  · rintro (h | h | h | h) <;> simp [classify, h]
  · intro h; simp [classify, h]
  · rintro (h | h) <;> simp [classify, h]
  · intro henv hnot
    simp only [List.mem_cons, List.mem_singleton, not_or] at hnot
    obtain ⟨h1, h2, h3, h4, h5, h6, h7, _⟩ := hnot
    simp [classify, h1, h2, h3, h4, h5, h6, h7, henv]
  · intro libs o f content hf hcl
    simp [processFile, hf, rewriteContent, hcl]

/-- Witness for the amended C4: a `.yml` extension beats the Dockerfile
name check, a `.json` extension beats the env name check, and a
no-match file passes through as processed, not modified, unwritten. -/
theorem C4_classifier_order_witness :
    classify "Dockerfile.yml" = Strategy.yaml ∧
    classify "some-env.json" = Strategy.json ∧
    processFile libsNone oWetW fTxtW = ⟨⟨true, false, none⟩, none⟩ :=
  ⟨(C4_classifier_order "Dockerfile.yml").2.2.1 (Or.inl rfl),
   (C4_classifier_order "some-env.json").2.1 rfl,
   (C4_classifier_order "notes.txt").2.2.2.2.2 libsNone oWetW fTxtW "hello" rfl rfl⟩

/-- For any one pair, the Code strategy's fold step is exactly the five
named rules in source order. -/
theorem processTypeScriptFile_eq_pairs (ci : Bool) (l : List (String × String)) :
    ∀ s : String,
      l.foldl (fun newContent pr =>
        let s1 := gReplaceAll ci (importRe pr.1) (pathRepl pr.2) newContent
        let s2 := gReplaceAll ci (exportRe pr.1) (pathRepl pr.2) s1
        let s3 := gReplaceAll ci (requireRe pr.1) (pathRepl pr.2) s2
        let s4 := replaceAllLit ci ("@" ++ pr.1) ("@" ++ pr.2) s3
        wordReplaceAll ci pr.1 pr.2 s4) s = applyCodePairs ci l s := by
  induction l with
  | nil => intro s; rfl
  | cons pr prs ih =>
    intro s
    simp only [List.foldl_cons, applyCodePairs]
    exact ih _

/-- C5: the Code strategy applies, for each RenameMap pair in order, the
five rules import-from path, export-from path, require path, scoped
`@old`, and finally the generic whole-word rule — the specific rules
before the generic one within each pair — and each pair's output is the
next pair's input; on the spec's concrete scenario the import path is
rewritten. -/
theorem C5_code_rule_order (content : String) (o : RenameOptions) :
    processTypeScriptFile content o = applyCodePairs (ciFlag o) (renameMap o) content ∧
    (∀ pr prs s, applyCodePairs (ciFlag o) (pr :: prs) s =
      applyCodePairs (ciFlag o) prs
        (applyWordRule (ciFlag o) pr.1 pr.2
          (applyScopedRule (ciFlag o) pr.1 pr.2
            (applyRequireRule (ciFlag o) pr.1 pr.2
              (applyExportRule (ciFlag o) pr.1 pr.2
                (applyImportRule (ciFlag o) pr.1 pr.2 s)))))) ∧
    processTypeScriptFile "import x from 'old-package';" oWetW =
      "import x from 'new-package';" := by
  refine ⟨processTypeScriptFile_eq_pairs (ciFlag o) (renameMap o) content, ?_, by decide⟩
  intro pr prs s
  rfl

/-- A singleton object with the untouched key `level` is rewritten
field-wise: the wrapper key stays, the payload is rewritten. -/
theorem rewriteValue_level (v : Json) :
    rewriteValue mapC6 true (.obj (.cons "level" v .nil)) =
      .obj (.cons "level" (rewriteValue mapC6 true v) .nil) := by
  have h : rewriteString mapC6 true "level" = "level" := by decide
  simp [rewriteValue, rewriteObjGo, insertJS, h]

/-- C6: at every nesting depth `d`, the structural rewrite renames an
object key containing the old token and substring-replaces a scalar
string containing it, mapping arrays element-wise; the JSON strategy
re-serializes the rewritten tree, concretely with 2-space
indentation. -/
theorem C6_structural_rewrite_depth (d : Nat) :
    rewriteValue mapC6 true (nestDepth d markerIn) = nestDepth d markerOut ∧
    (∀ (jp : String → Option Json) (content : String),
      jp content = some (nestDepth d markerIn) →
      processJsonFile jp content oC6 =
        (jsonStringify (rewriteValue mapC6 true (nestDepth d markerIn)), false)) ∧
    processJsonFile (fun _ => some markerIn) "x" oC6 =
      ("\x7b\n  \"key-new-pkg\": [\n    \"xnew-pkgy\",\n    5\n  ]\n\x7d", false) := by
  refine ⟨?_, ?_, by decide⟩
  · induction d with
    | zero => rfl
    | succ d ih =>
      show rewriteValue mapC6 true (.obj (.cons "level" (nestDepth d markerIn) .nil)) = _
      rw [rewriteValue_level, ih]
      rfl
  · intro jp content h
    simp [processJsonFile, h, renameMap, oC6, mapC6, ciFlag]

/-- Witness for C6 at depth 1. -/
theorem C6_structural_rewrite_depth_witness :
    processJsonFile (fun _ => some (nestDepth 1 markerIn)) "x" oC6 =
      (jsonStringify (rewriteValue mapC6 true (nestDepth 1 markerIn)), false) :=
  (C6_structural_rewrite_depth 1).2.1 (fun _ => some (nestDepth 1 markerIn)) "x" rfl

/-- C7: the Env strategy is, per pair, the uppercased-variable-name rule
followed by the `=old` right-hand-side rule; a variable-name match is
rewritten to the uppercased new token even when the new token is
lowercase (`old_var=value` becomes `NEW_VAR=value`), and `=old`
right-hand sides become `=new`. -/
theorem C7_env_uppercase_normalization :
    (∀ (c oldN newN : String) (cs : Bool),
      processEnvFile c { oldName := oldN, newName := newN, caseSensitive := cs } =
        replaceAllLit (!cs) ("=" ++ oldN) ("=" ++ newN)
          (replaceAllLit (!cs) (jsToUpper oldN) (jsToUpper newN) c)) ∧
    processEnvFile "old_var=value" { oldName := "old_var", newName := "new_var" } =
      "NEW_VAR=value" ∧
    processEnvFile "PORT=old-pkg"
        { oldName := "old-pkg", newName := "new-pkg", caseSensitive := true } =
      "PORT=new-pkg" :=
  ⟨fun _ _ _ _ => rfl, by decide, by decide⟩

/-- Counterexample to C8 as stated: with the (non-cyclic) batch map
`a → b, c → a` and preview off, a `.ts` file containing `c` is rewritten
to `a` by the first run and rewritten again (to `b`) by the second run:
the second run modifies one file, not zero. -/
theorem C8_second_run_counterexample :
    oTwice.dry = false ∧
    (runSummary libsNone oTwice
      (applyWrites filesTwice (runResults libsNone oTwice filesTwice))).modified = 1 :=
  ⟨rfl, by decide⟩

/-- The summary's modified count is the count of modified outcomes. -/
theorem foldl_summaryStep_modified (rs : List FileResult) :
    ∀ acc : RunSummary, (rs.foldl summaryStep acc).modified =
      acc.modified + rs.countP (fun r => r.outcome.modified) := by
  induction rs with
  | nil => intro acc; simp
  | cons r rs ih =>
    intro acc
    rw [List.foldl_cons, ih, List.countP_cons]
    simp [summaryStep]
    omega

/-- Applying a run's writes maps each file to its own after-write state. -/
theorem applyWrites_map (g : FileInput → FileResult) :
    ∀ files : List FileInput,
      applyWrites files (files.map g) = files.map (fun f => afterWrite (g f) f) := by
  intro files
  induction files with
  | nil => rfl
  | cons f fs ih => simpa [applyWrites, afterWrite, List.zipWith] using ih

/-- After one non-preview pass over a file whose rewrite has reached a
fixed point, a second pass does not modify it. -/
theorem second_run_not_modified (libs : ExternalLibs) (o : RenameOptions)
    (hdry : o.dry = false) (f : FileInput)
    (hfix : ∀ content, f.readResult = .ok content →
      (rewriteContent libs o f.path ((rewriteContent libs o f.path content).1)).1 =
        (rewriteContent libs o f.path content).1) :
    (processFile libs o (afterWrite (processFile libs o f) f)).outcome.modified = false := by
  cases hr : f.readResult with
  | error e => simp [processFile, afterWrite, hr]
  | ok content =>
    have hfx := hfix content hr
    by_cases hmod : (rewriteContent libs o f.path content).1 = content
    · simp [processFile, afterWrite, hr, hmod, hdry]
    · simp [processFile, afterWrite, hr, hmod, hdry, hfx]

/-- C8 (amended): with preview off, whenever every file's rewrite has
reached a fixed point after the first run (as holds for ordinary
renames whose new token does not re-match), the second run modifies
zero files; the unrestricted claim fails (see the counterexample) when
a later map pair reintroduces an earlier pair's old token. -/
theorem C8_fixed_point_after_first_run (libs : ExternalLibs) (o : RenameOptions)
    (files : List FileInput) (hdry : o.dry = false)
    (hfix : ∀ f ∈ files, ∀ content, f.readResult = .ok content →
      (rewriteContent libs o f.path ((rewriteContent libs o f.path content).1)).1 =
        (rewriteContent libs o f.path content).1) :
    (runSummary libs o (applyWrites files (runResults libs o files))).modified = 0 := by
  rw [runSummary, foldl_summaryStep_modified]
  have hrr : runResults libs o files = files.map (processFile libs o) := rfl
  rw [hrr, applyWrites_map]
  rw [runResults, List.map_map, List.countP_map]
  have hz : ∀ f ∈ files,
      ¬(((fun r => r.outcome.modified) ∘
        (processFile libs o ∘ fun f => afterWrite (processFile libs o f) f)) f = true) := by
    intro f hf
    simp only [Function.comp]
    rw [second_run_not_modified libs o hdry f (hfix f hf)]
    simp
  rw [List.countP_eq_zero.mpr hz]

/-- Witness for the amended C8: a case-sensitive env rename reaches its
fixed point after one run, so the second run modifies zero files. -/
theorem C8_fixed_point_after_first_run_witness :
    (runSummary libsNone oTwiceW
      (applyWrites filesTwiceW (runResults libsNone oTwiceW filesTwiceW))).modified = 0 :=
  C8_fixed_point_after_first_run libsNone oTwiceW filesTwiceW rfl (by
    intro f hf content hc
    simp only [filesTwiceW, List.mem_singleton] at hf
    subst hf
    simp only at hc
    injection hc with h
    subst h
    decide)

/-- C9: the Markdown code-span rule never fires on ordinary markdown —
a token inside an inline code span that is not on a word boundary
(`myold-package` inside backticks) is left unrewritten by the whole
strategy, against the documented intent; the double-escaped pattern
only matches literal backslash-backtick runs, where it does rewrite. -/
theorem C9_code_span_rule_dead :
    processMarkdownFile "`myold-package`" oWetW = "`myold-package`" ∧
    gReplaceAll true mdCodeRe (fun m _ => replaceAllLit true "old-package" "new-package" m)
      "`myold-package`" = "`myold-package`" ∧
    processMarkdownFile "x \\`myold-package\\` y" oWetW = "x \\`mynew-package\\` y" :=
  ⟨by decide, by decide, by decide⟩

/-- Bool membership of `contains` agrees with list membership. -/
theorem contains_iff_mem_keys (ks : List String) (x : String) :
    ks.contains x = true ↔ x ∈ ks := by
  simp [List.contains]

/-- A key of `insertJS acc k v` is a key of `acc` or is `k`. -/
theorem mem_keys_insertJS :
    ∀ (acc : JsonObj) (k : String) (v : Json) (x : String),
      x ∈ (insertJS acc k v).keys → x ∈ acc.keys ∨ x = k
  | .nil, _, _, x, hx => by
    simp [insertJS, JsonObj.keys] at hx
    exact Or.inr hx
  | .cons k0 v0 rest, k, v, x, hx => by
    by_cases h : k0 = k
    · simp only [insertJS, if_pos h, JsonObj.keys, List.mem_cons] at hx
      rcases hx with h1 | h1
      · exact Or.inl (by simp [JsonObj.keys, h1])
      · exact Or.inl (by simp [JsonObj.keys]; exact Or.inr h1)
    · simp only [insertJS, if_neg h, JsonObj.keys, List.mem_cons] at hx
      rcases hx with h1 | h1
      · exact Or.inl (by simp [JsonObj.keys, h1])
      · rcases mem_keys_insertJS rest k v x h1 with h2 | h2
        · exact Or.inl (by simp [JsonObj.keys]; exact Or.inr h2)
        · exact Or.inr h2

/-- JavaScript property assignment preserves distinctness of keys. -/
theorem nodup_insertJS :
    ∀ (acc : JsonObj) (k : String) (v : Json),
      nodupKeysList acc.keys = true → nodupKeysList (insertJS acc k v).keys = true
  | .nil, k, v, _ => by simp [insertJS, JsonObj.keys, nodupKeysList]
  | .cons k0 v0 rest, k, v, h => by
    simp only [JsonObj.keys, nodupKeysList, Bool.and_eq_true, Bool.not_eq_true'] at h
    by_cases hk : k0 = k
    · simp only [insertJS, if_pos hk, JsonObj.keys, nodupKeysList, Bool.and_eq_true,
        Bool.not_eq_true']
      exact h
    · simp only [insertJS, if_neg hk, JsonObj.keys, nodupKeysList, Bool.and_eq_true,
        Bool.not_eq_true']
      refine ⟨?_, nodup_insertJS rest k v h.2⟩
      by_contra hc
      simp only [Bool.not_eq_false] at hc
      rcases mem_keys_insertJS rest k v k0 ((contains_iff_mem_keys _ _).1 hc) with h2 | h2
      · rw [(contains_iff_mem_keys _ _).2 h2] at h
        exact absurd h.1 (by simp)
      · exact hk h2

/-- JavaScript property assignment preserves well-keyed values. -/
theorem keysOkObj_insertJS :
    ∀ (acc : JsonObj) (k : String) (v : Json),
      keysOkObj acc = true → keysOkV v = true → keysOkObj (insertJS acc k v) = true
  | .nil, _, _, _, hv => by simp [insertJS, keysOkObj, hv]
  | .cons k0 v0 rest, k, v, h, hv => by
    simp only [keysOkObj, Bool.and_eq_true] at h
    by_cases hk : k0 = k
    · simp only [insertJS, if_pos hk, keysOkObj, Bool.and_eq_true]
      exact ⟨hv, h.2⟩
    · simp only [insertJS, if_neg hk, keysOkObj, Bool.and_eq_true]
      exact ⟨h.1, keysOkObj_insertJS rest k v h.2 hv⟩

mutual
/-- Every object in a rewritten value has pairwise-distinct keys. -/
theorem keysOk_rewriteValue (m : List (String × String)) (ci : Bool) :
    ∀ v : Json, keysOkV (rewriteValue m ci v) = true
  | .str _ => rfl
  | .num _ => rfl
  | .bool _ => rfl
  | .null => rfl
  | .arr xs => by
    simp only [rewriteValue, keysOkV]
    exact keysOk_rewriteArr m ci xs
  | .obj fs => by
    simp only [rewriteValue, keysOkV, Bool.and_eq_true]
    exact keysOk_rewriteObjGo m ci fs .nil rfl rfl
/-- Array version of `keysOk_rewriteValue`. -/
theorem keysOk_rewriteArr (m : List (String × String)) (ci : Bool) :
    ∀ xs : JsonArr, keysOkArr (rewriteArr m ci xs) = true
  | .nil => rfl
  | .cons x xs => by
    simp only [rewriteArr, keysOkArr, Bool.and_eq_true]
    exact ⟨keysOk_rewriteValue m ci x, keysOk_rewriteArr m ci xs⟩
/-- Object-rebuild version of `keysOk_rewriteValue`: the accumulator
invariant of the field-by-field rebuild. -/
theorem keysOk_rewriteObjGo (m : List (String × String)) (ci : Bool) :
    ∀ (fs : JsonObj) (acc : JsonObj),
      nodupKeysList acc.keys = true → keysOkObj acc = true →
      nodupKeysList (rewriteObjGo m ci acc fs).keys = true ∧
        keysOkObj (rewriteObjGo m ci acc fs) = true
  | .nil, _, h1, h2 => ⟨h1, h2⟩
  | .cons k v fs, acc, h1, h2 =>
    keysOk_rewriteObjGo m ci fs
      (insertJS acc (rewriteString m ci k) (rewriteValue m ci v))
      (nodup_insertJS acc (rewriteString m ci k) (rewriteValue m ci v) h1)
      (keysOkObj_insertJS acc (rewriteString m ci k) (rewriteValue m ci v) h2
        (keysOk_rewriteValue m ci v))
end

/-- C10: in the JSON/YAML structural rewrite, a renamed key that
collides with another key of the same object makes the later-enumerated
entry silently overwrite the earlier one (renaming `a → b` over the
object `a: 1, b: 2` drops the first pair and yields `b: 2`), and the
rewritten output never contains an object with duplicate keys. -/
theorem C10_key_collision_overwrite (m : List (String × String)) (ci : Bool) (v : Json) :
    keysOkV (rewriteValue m ci v) = true ∧
    rewriteValue [("a", "b")] true (.obj (.cons "a" (.num 1) (.cons "b" (.num 2) .nil)))
      = .obj (.cons "b" (.num 2) .nil) :=
  ⟨keysOk_rewriteValue m ci v, rfl⟩

end SafeRename
